import Mathlib

/-!
Verification development for the layout-constraint synthesizer.

Shallow embedding of the relevant Python sources:
- `src/cse291p/pipeline/view/primitives.py`, `view/types.py`, `view/view.py`
  (attributes, anchors, views)
- `src/cse291p/pipeline/hierarchical_decomp/conformance.py`
- `src/cse291p/pipeline/hierarchical_decomp/types.py` (`BasePruningMethod`)
- `src/cse291p/pipeline/hierarchical_decomp/blackbox.py` (`BlackBoxPruner`)
- `src/cse291p/pipeline/hierarchical_decomp/hierarchical.py` (`HierarchicalPruner`)
- `src/instantiation.py` and `src/types.py` (numpy template instantiation)

All rationals of the Python code (`fractions.Fraction`, `sympy.Rational`) are
embedded as `ℚ`.  Python dictionaries are embedded as association lists in
insertion order; Python sets as lists deduplicated at insertion.  The Z3
solver is opaque to the code under verification, so it is embedded as an
oracle that maps the asserted formula list to a check result.
-/

namespace Spec2Proof

/-- The eight anchorable attributes (`Attribute` in `view/primitives.py`,
and the `type` literals of `src/types.py`). -/
inductive Attr where
  | left | top | right | bottom | center_x | center_y | width | height
deriving DecidableEq, Repr

/-- `Attribute.is_size` (`view/primitives.py`). -/
def Attr.isSize : Attr → Bool
  | .width => true
  | .height => true
  | _ => false

/-- `Attribute.is_position` (`view/primitives.py`). -/
def Attr.isPosition : Attr → Bool
  | .left => true | .top => true | .right => true | .bottom => true
  | .center_x => true | .center_y => true
  | _ => false

/-- `h_attrs` membership (`view/primitives.py`): left, right, center_x, width. -/
def Attr.isHorizontal : Attr → Bool
  | .left => true | .right => true | .center_x => true | .width => true
  | _ => false

/-- `v_attrs` membership (`view/primitives.py`): top, bottom, center_y, height. -/
def Attr.isVertical : Attr → Bool
  | .top => true | .bottom => true | .center_y => true | .height => true
  | _ => false

/-- `AnchorID` (`view/types.py`): a `(view_name, attribute)` pair. -/
structure AnchorId where
  viewName : String
  attr : Attr
deriving DecidableEq, Repr

/-- Comparison operators used for constraints (`operator.eq/le/ge`). -/
inductive CmpOp where
  | eq | le | ge
deriving DecidableEq, Repr

/-- Evaluate a comparison operator on rationals. -/
def CmpOp.apply : CmpOp → ℚ → ℚ → Bool
  | .eq, a, b => a == b
  | .le, a, b => a ≤ b
  | .ge, a, b => b ≤ a

/-- Modelled from the spec: the constraint priorities of the missing
`constraint/types.py` (`PRIORITY_REQUIRED`, `PRIORITY_STRONG`,
`PRIORITY_MEDIUM`, `PRIORITY_WEAK`); the spec lists
`priority ∈ {required, strong, medium, weak}`. -/
inductive Priority where
  | required | strong | medium | weak
deriving DecidableEq, Repr

/-- Modelled from the spec: the `ConstraintKind` enumeration of the missing
`constraint/types.py`.  The spec names `SIZE_CONSTANT`, `SIZE_ASPECT_RATIO`,
`SIZE_RATIO` and `POS_LTRB_OFFSET`; the constructor `size_aspect` embeds
`SIZE_ASPECT_RATIO`, `size_rel` embeds `SIZE_RATIO` and `pos_offset` embeds
`POS_LTRB_OFFSET`. -/
inductive ConstraintKind where
  | size_const | size_aspect | size_rel | pos_offset
deriving DecidableEq, Repr

/-- `IConstraint` data (`constraint/constraint.py`): the shared fields of
`ConstantConstraint` (which has `x_id = None` and `a = 0`) and
`LinearConstraint`.  `a` and `b` are the learned rational parameters. -/
structure Constraint where
  kind : ConstraintKind
  y_id : AnchorId
  x_id : Option AnchorId
  a : ℚ
  b : ℚ
  op : CmpOp
  priority : Priority
  sample_count : ℤ
  is_falsified : Bool
deriving DecidableEq, Repr

/-- `ConstraintCandidate` (`bayes/types.py`): a constraint with a score.
The Python score is a float; it is embedded as a rational. -/
structure Candidate where
  constraint : Constraint
  score : ℚ
deriving DecidableEq, Repr

/-! ## Conformances (`hierarchical_decomp/conformance.py`) -/

/-- `Conformance` (`conformance.py`): `(w, h, x, y)` in exact rationals. -/
structure Conformance where
  w : ℚ
  h : ℚ
  x : ℚ
  y : ℚ
deriving DecidableEq, Repr

/-- `conformance_range` (`conformance.py` lines 30-44): two endpoints for
`scale <= 2`, otherwise endpoints plus the componentwise midpoint. -/
def conformance_range (min_conf max_conf : Conformance) (scale : ℤ) : List Conformance :=
  if scale ≤ 2 then
    [min_conf, max_conf]
  else
    let mid : Conformance :=
      { w := (min_conf.w + max_conf.w) / 2
        h := (min_conf.h + max_conf.h) / 2
        x := (min_conf.x + max_conf.x) / 2
        y := (min_conf.y + max_conf.y) / 2 }
    [min_conf, mid, max_conf]

/-! ## `BasePruningMethod.combine_bounds` and `filter_constraints`
(`hierarchical_decomp/types.py`) -/

/-- Modelled from the spec: `anchor_equiv` of the missing
`hierarchical_decomp/util.py`.  The spec describes the combine-bounds pass as
acting on a pair of constraints over the same anchors, so two constraints are
anchor-equivalent when they agree on `y_id` and `x_id`. -/
def anchor_equiv (c t : Constraint) : Bool :=
  c.y_id == t.y_id && c.x_id == t.x_id

/-- `more_itertools.first_true(iterable, pred=p, default=d)`: the first
element satisfying `p`, or `d` when none does. -/
def first_true (l : List Constraint) (p : Constraint → Bool) (d : Constraint) : Constraint :=
  match l.find? p with
  | some c => c
  | none => d

/-- Insert into a Python-set model: append unless already present.  The Python
`set` iterates in an unspecified order; this model fixes insertion order. -/
def setInsert (s : List Constraint) (c : Constraint) : List Constraint :=
  if c ∈ s then s else s ++ [c]

/-- The transformation `combine_bounds` applies to one constraint `c` of the
input list (`types.py` lines 97-102): find the first anchor-equivalent
constraint with a different operator; if it exists and the offsets differ by
less than the literal tolerance 5, replace `c` by an equality constraint at
the average offset with strong priority, otherwise keep `c`. -/
def combineStep (constraints : List Constraint) (c : Constraint) : Constraint :=
  let other := first_true constraints (fun t => anchor_equiv c t && c.op != t.op) c
  if other != c && |other.b - c.b| < 5 then
    { c with op := .eq, b := (other.b + c.b) / 2, priority := .strong }
  else
    c

/-- `BasePruningMethod.combine_bounds` (`types.py` lines 95-103).  The Python
code accumulates the per-constraint results into a `set` and returns it as a
list; the model deduplicates at insertion, keeping first-insertion order. -/
def combine_bounds (constraints : List Constraint) : List Constraint :=
  constraints.foldl (fun out c => setInsert out (combineStep constraints c)) []

/-- `BasePruningMethod.filter_constraints` (`types.py` lines 167-172): drop
all `SIZE_ASPECT_RATIO` constraints, combine bounds, and (when `elim_uneq`)
keep only equality constraints. -/
def filter_constraints (constraints : List Constraint) (elim_uneq : Bool := true) :
    List Constraint :=
  let constraints := constraints.filter (fun c => c.kind != ConstraintKind.size_aspect)
  let constraints := combine_bounds constraints
  if elim_uneq then constraints.filter (fun c => c.op == CmpOp.eq) else constraints

/-! ## Views (`view/view.py`) -/

/-- `View` (`view/view.py`): a named rectangle with child views.  The rect is
`(left, top, right, bottom)` in exact rationals. -/
inductive MView where
  | node (name : String) (left top right bottom : ℚ) (children : List MView)

namespace MView

def name : MView → String
  | .node n _ _ _ _ _ => n

def left : MView → ℚ
  | .node _ l _ _ _ _ => l

def top : MView → ℚ
  | .node _ _ t _ _ _ => t

def right : MView → ℚ
  | .node _ _ _ r _ _ => r

def bottom : MView → ℚ
  | .node _ _ _ _ b _ => b

def children : MView → List MView
  | .node _ _ _ _ _ cs => cs

/-- `Rect.width` (`view/primitives.py`): `right - left`. -/
def width (v : MView) : ℚ := v.right - v.left

/-- `Rect.height` (`view/primitives.py`): `bottom - top`. -/
def height (v : MView) : ℚ := v.bottom - v.top

/-- `Rect.center_x` (`view/primitives.py`): `(left + right) / 2`. -/
def center_x (v : MView) : ℚ := (v.left + v.right) / 2

/-- `Rect.center_y` (`view/primitives.py`): `(top + bottom) / 2`. -/
def center_y (v : MView) : ℚ := (v.top + v.bottom) / 2

/-- The value of the anchor with the given attribute (`Anchor.value` in
`view/types.py` delegates to the rect field of the view). -/
def attrValue (v : MView) : Attr → ℚ
  | .left => v.left
  | .top => v.top
  | .right => v.right
  | .bottom => v.bottom
  | .center_x => v.center_x
  | .center_y => v.center_y
  | .width => v.width
  | .height => v.height

/-- The anchor id of the given attribute of this view. -/
def aid (v : MView) (a : Attr) : AnchorId := ⟨v.name, a⟩

/-- `View.anchors` order (`view/view.py` lines 92-95): left, right, top,
bottom, center_x, center_y, height, width (height before width). -/
def anchorAttrs : List Attr :=
  [.left, .right, .top, .bottom, .center_x, .center_y, .height, .width]

/-- Anchor-id/value pairs of one view, in `View.anchors` order. -/
def anchorIdVals (v : MView) : List (AnchorId × ℚ) :=
  anchorAttrs.map (fun a => (v.aid a, v.attrValue a))

/-- `View.x_anchors` ids (`view/view.py`): left, right, width, center_x. -/
def xAnchorIds (v : MView) : List AnchorId :=
  [v.aid .left, v.aid .right, v.aid .width, v.aid .center_x]

/-- `View.y_anchors` ids (`view/view.py`): top, bottom, height, center_y. -/
def yAnchorIds (v : MView) : List AnchorId :=
  [v.aid .top, v.aid .bottom, v.aid .height, v.aid .center_y]

mutual
/-- `View.__iter__` (`view/view.py` lines 190-193): the view followed by the
pre-order traversal of each child subtree. -/
def preorder : MView → List MView
  | .node n l t r b cs => .node n l t r b cs :: preorderList cs
def preorderList : List MView → List MView
  | [] => []
  | v :: vs => preorder v ++ preorderList vs
end

/-- `View.is_parent_of_name` (`view/view.py`): some direct child has the
given name. -/
def is_parent_of_name (v : MView) (n : String) : Bool :=
  v.children.any (fun c => c.name == n)

/-- `View.find_view(name, include_self=True, deep=True)` as used by
`find_anchor` (`view/view.py`): the first view of the pre-order traversal
with the given name. -/
def findViewDeep (v : MView) (n : String) : Option MView :=
  (preorder v).find? (fun w => w.name == n)

/-- `View.find_anchor` (`view/view.py` lines 130-137): look up the view of
the anchor id and take its anchor for that attribute.  When the view is
absent the Python code would fail on `getattr(None, ...)`; the model returns
`none`. -/
def find_anchor (v : MView) (a : AnchorId) : Option (MView × Attr) :=
  (findViewDeep v a.viewName).map (fun w => (w, a.attr))

end MView

/-! ## The SMT formula language

Every Z3 assertion emitted by the pruners is one of finitely many shapes.
`anchor_id_to_z3_var(id, k)` (`integration/z3.py`) is the real variable named
`str(id) + "_" + str(k)`; it is embedded structurally as `RExpr.v id k`. -/

/-- Real-valued Z3 expressions appearing in the pruner's assertions. -/
inductive RExpr where
  | v (id : AnchorId) (conf : ℕ)
  | lit (q : ℚ)
  | add (a b : RExpr)
  | sub (a b : RExpr)
  | mul (a b : RExpr)
  | div (a b : RExpr)
deriving DecidableEq, Repr

/-- The assertion shapes emitted by `BlackBoxPruner` and its helpers:
plain comparisons, selector-guarded comparisons (`Implies(Bool sel, cmp)`),
selector literals, CEGIS blocking clauses (`Not(And(sels))`), negated
placement conjunctions (`Not(And(var == val, ...))`), and the integer
clauses of `add_determinism`. -/
inductive Formula where
  | cmp (op : CmpOp) (l r : RExpr)
  | selImp (sel : String) (op : CmpOp) (l r : RExpr)
  | selLit (sel : String) (val : Bool)
  | blockClause (sels : List String)
  | notConjEq (eqs : List (AnchorId × ℕ × ℚ))
  | intImp (sel : String) (onTrue : Bool) (ivar : String) (val : ℤ)
  | intSumLe (ivars : List String) (bound : ℤ)
  | intSumEq (ivars : List String) (bound : ℤ)
deriving DecidableEq, Repr

/-- A valuation of the Z3 variables: reals indexed by anchor id and
conformance index, booleans and integers by name. -/
structure Valuation where
  realV : AnchorId → ℕ → ℚ
  boolV : String → Bool
  intV : String → ℤ

/-- Evaluate a real expression under a valuation. -/
def RExpr.eval (ρ : Valuation) : RExpr → ℚ
  | .v id k => ρ.realV id k
  | .lit q => q
  | .add a b => a.eval ρ + b.eval ρ
  | .sub a b => a.eval ρ - b.eval ρ
  | .mul a b => a.eval ρ * b.eval ρ
  | .div a b => a.eval ρ / b.eval ρ

/-- Evaluate a formula under a valuation. -/
def Formula.eval (ρ : Valuation) : Formula → Bool
  | .cmp op l r => op.apply (l.eval ρ) (r.eval ρ)
  | .selImp s op l r => !ρ.boolV s || op.apply (l.eval ρ) (r.eval ρ)
  | .selLit s val => ρ.boolV s == val
  | .blockClause sels => !sels.all ρ.boolV
  | .notConjEq eqs => !eqs.all (fun e => ρ.realV e.1 e.2.1 == e.2.2)
  | .intImp s onTrue iv val => !(ρ.boolV s == onTrue) || (ρ.intV iv == val)
  | .intSumLe ivs bound => decide ((ivs.map ρ.intV).sum ≤ bound)
  | .intSumEq ivs bound => (ivs.map ρ.intV).sum == bound

/-- `constraint_to_z3_expr` (`integration/z3.py` lines 22-30) at conformance
index `k`: `op(y, x * a + b)` for linear constraints, `op(y, b)` for
constant ones. -/
def constraintCmp (c : Constraint) (k : ℕ) : CmpOp × RExpr × RExpr :=
  match c.x_id with
  | some x => (c.op, .v c.y_id k, .add (.mul (.v x k) (.lit c.a)) (.lit c.b))
  | none => (c.op, .v c.y_id k, .lit c.b)

/-- `constraint_to_z3_expr` as a top-level assertion. -/
def constraintFormula (c : Constraint) (k : ℕ) : Formula :=
  let e := constraintCmp c k
  .cmp e.1 e.2.1 e.2.2

/-- `constraint_to_z3_expr` guarded by the selector boolean, as in
`solver.add(z3.Implies(cvar, constraint_to_z3_expr(constr, conf_idx)))`. -/
def constraintImp (sel : String) (c : Constraint) (k : ℕ) : Formula :=
  let e := constraintCmp c k
  .selImp sel e.1 e.2.1 e.2.2

/-- `add_conf_dims` (`conformance.py` lines 60-66): pin the focus view's
width, height, x and y anchors to the conformance values at index `k`. -/
def addConfDims (conf : Conformance) (k : ℕ) (topX topY topW topH : AnchorId) :
    List Formula :=
  [.cmp .eq (.v topW k) (.lit conf.w),
   .cmp .eq (.v topH k) (.lit conf.h),
   .cmp .eq (.v topX k) (.lit conf.x),
   .cmp .eq (.v topY k) (.lit conf.y)]

/-- `BasePruningMethod.add_layout_axioms` (`types.py` lines 135-165,
`tracking=False`): per box, on the horizontal instance `width = right - left`,
`center_x = (left + right) / 2`, and every x-anchor nonnegative; analogously
on the vertical instance. -/
def layoutAxioms (k : ℕ) (boxes : List MView) (xdim : Bool) : List Formula :=
  boxes.flatMap (fun box =>
    if xdim then
      [Formula.cmp .eq (.v (box.aid .width) k) (.sub (.v (box.aid .right) k) (.v (box.aid .left) k)),
       Formula.cmp .eq (.v (box.aid .center_x) k)
         (.div (.add (.v (box.aid .left) k) (.v (box.aid .right) k)) (.lit 2))]
      ++ box.xAnchorIds.map (fun id => Formula.cmp .ge (.v id k) (.lit 0))
    else
      [Formula.cmp .eq (.v (box.aid .height) k) (.sub (.v (box.aid .bottom) k) (.v (box.aid .top) k)),
       Formula.cmp .eq (.v (box.aid .center_y) k)
         (.div (.add (.v (box.aid .top) k) (.v (box.aid .bottom) k)) (.lit 2))]
      ++ box.yAnchorIds.map (fun id => Formula.cmp .ge (.v id k) (.lit 0)))

mutual
/-- `BasePruningMethod.add_containment_axioms` (`types.py` lines 121-133):
for every child, `child.left >= parent.left` and `child.right <= parent.right`
on the horizontal instance (top/bottom on the vertical), recursively down
the subtree. -/
def containmentAxioms (k : ℕ) (xdim : Bool) : MView → List Formula
  | .node pn _ _ _ _ cs => containmentAxiomsList k xdim pn cs
def containmentAxiomsList (k : ℕ) (xdim : Bool) (pn : String) :
    List MView → List Formula
  | [] => []
  | child :: rest =>
    (if xdim then
      [Formula.cmp .ge (.v ⟨child.name, .left⟩ k) (.v ⟨pn, .left⟩ k),
       Formula.cmp .le (.v ⟨child.name, .right⟩ k) (.v ⟨pn, .right⟩ k)]
    else
      [Formula.cmp .ge (.v ⟨child.name, .top⟩ k) (.v ⟨pn, .top⟩ k),
       Formula.cmp .le (.v ⟨child.name, .bottom⟩ k) (.v ⟨pn, .bottom⟩ k)])
    ++ containmentAxioms k xdim child ++ containmentAxiomsList k xdim pn rest
end

/-! ## `BlackBoxPruner.add_determinism` (`blackbox.py` lines 94-143)

The method is modelled here exactly as written in the source; whether the
solver instances built by `__call__` ever contain its clauses is settled by
the theorems below. -/

/-- The lowercase attribute name (`Attribute.value`). -/
def Attr.str : Attr → String
  | .left => "left" | .top => "top" | .right => "right" | .bottom => "bottom"
  | .center_x => "center_x" | .center_y => "center_y"
  | .width => "width" | .height => "height"

/-- `str(anchor_id)` (`view/types.py`): `view_name.attribute`. -/
def AnchorId.str (a : AnchorId) : String := a.viewName ++ "." ++ a.attr.str

/-- The constraints of `cmap` defining a given anchor id, in map-insertion
order (`constrs_by_id` of `add_determinism`): the entries whose `y_id` is
the id and whose `y_id` view is not the focus example. -/
def constrsById (exampleName : String) (cmap : List (String × Constraint))
    (keys : List AnchorId) (id : AnchorId) : List (String × Constraint) :=
  if keys.contains id then
    cmap.filter (fun nc => nc.2.y_id == id && nc.2.y_id.viewName != exampleName)
  else []

/-- `BlackBoxPruner.add_determinism` (`blackbox.py` lines 94-143): for every
anchor of a non-focus target, an at-most-one 0-1 sum over the selectors
defining it; for every non-focus target, an exactly-two 0-1 sum over the
selectors defining its four anchors of the instance's axis. -/
def addDeterminism (targets : List MView) (exampleName : String)
    (cmap : List (String × Constraint)) (xdim : Bool) : List Formula :=
  let nonFocus := targets.filter (fun b => b.name != exampleName)
  let keys := nonFocus.flatMap (fun b => MView.anchorAttrs.map (b.aid ·))
  let byId := constrsById exampleName cmap keys
  let perAnchor := keys.flatMap (fun id =>
    let constrs := byId id
    let pre := "unique_var_" ++ id.str
    constrs.enum.flatMap (fun p =>
      [Formula.intImp p.2.1 true (pre ++ toString p.1) 1,
       Formula.intImp p.2.1 false (pre ++ toString p.1) 0])
    ++ [Formula.intSumLe (constrs.enum.map (fun p => pre ++ toString p.1)) 1])
  let perBox := nonFocus.flatMap (fun box =>
    let dims := if xdim then box.xAnchorIds else box.yAnchorIds
    let pre := (if xdim then "determ_x_" else "determ_y_") ++ box.name
    let entries := dims.flatMap byId
    entries.enum.flatMap (fun p =>
      [Formula.intImp p.2.1 true (pre ++ toString p.1) 1,
       Formula.intImp p.2.1 false (pre ++ toString p.1) 0])
    ++ [Formula.intSumEq (entries.enum.map (fun p => pre ++ toString p.1)) 2])
  perAnchor ++ perBox

/-! ## `BlackBoxPruner` construction and instance assembly (`blackbox.py`) -/

/-- `ISizeBounds` (`hierarchical_decomp/types.py`). -/
structure SizeBounds where
  min_w : Option ℚ := none
  max_w : Option ℚ := none
  min_h : Option ℚ := none
  max_h : Option ℚ := none
  min_x : Option ℚ := none
  max_x : Option ℚ := none
  min_y : Option ℚ := none
  max_y : Option ℚ := none
deriving DecidableEq, Repr

/-- `confs_to_bounds` (`conformance.py` lines 47-57). -/
def confs_to_bounds (mn mx : Conformance) : SizeBounds :=
  { min_w := some mn.w, max_w := some mx.w,
    min_h := some mn.h, max_h := some mx.h,
    min_x := some mn.x, max_x := some mx.x,
    min_y := some mn.y, max_y := some mx.y }

/-- Python's `opt or d` on an optional rational: `d` when `opt` is `None`
or the (falsy) value `0`. -/
def pyOr (opt : Option ℚ) (d : ℚ) : ℚ :=
  match opt with
  | none => d
  | some q => if q = 0 then d else q

/-- `Modelled from the spec`: `to_frac` of the missing
`hierarchical_decomp/util.py` converts a sympy/int value to an exact
`Fraction`; on the `ℚ` embedding it is the identity. -/
def to_frac (q : ℚ) : ℚ := q

/-- The min/max conformance computation shared by `BlackBoxPruner.__init__`
(`blackbox.py` lines 60-79) and `HierarchicalPruner.__init__`
(`hierarchical.py` lines 23-42). -/
def confRangeOfExamples (e : MView) (rest : List MView) (bounds : SizeBounds) :
    Conformance × Conformance :=
  let minW := (rest.map MView.width).foldl min e.width
  let maxW := (rest.map MView.width).foldl max e.width
  let minH := (rest.map MView.height).foldl min e.height
  let maxH := (rest.map MView.height).foldl max e.height
  let minX := (rest.map MView.left).foldl min e.left
  let maxX := (rest.map MView.left).foldl max e.left
  let minY := (rest.map MView.top).foldl min e.top
  let maxY := (rest.map MView.top).foldl max e.top
  ({ w := min (pyOr bounds.min_w minW) minW,
     h := min (pyOr bounds.min_h minH) minH,
     x := min (pyOr bounds.min_x minX) minX,
     y := min (pyOr bounds.min_y minY) minY },
   { w := max (pyOr bounds.max_w maxW) maxW,
     h := max (pyOr bounds.max_h maxH) maxH,
     x := max (pyOr bounds.max_x maxX) maxX,
     y := max (pyOr bounds.max_y maxY) maxY })

/-- The state of a constructed `BlackBoxPruner` (`blackbox.py` lines 51-92).
The four `top_*` anchors are the example root's width/height/left/top
anchors and are derived from `example` where needed. -/
structure Pruner where
  example_ : MView
  targets : List MView
  min_conf : Conformance
  max_conf : Conformance
  solve_unambig : Bool

/-- `BlackBoxPruner.__init__` (`blackbox.py` lines 60-92).  Fails (`none`)
on an empty example list (the Python assertion).  `targets or [x for x in
self.example]` falls back to the example's pre-order traversal when
`targets` is `None` or empty (an empty list is falsy in Python). -/
def mkBlackBoxPruner (examples : List MView) (bounds : SizeBounds)
    (solve_unambig : Bool) (targets : Option (List MView) := none) : Option Pruner :=
  match examples with
  | [] => none
  | e :: rest =>
    let cr := confRangeOfExamples e rest bounds
    let tg := match targets with
      | none => e.preorder
      | some [] => e.preorder
      | some ts => ts
    some { example_ := e, targets := tg, min_conf := cr.1, max_conf := cr.2,
           solve_unambig := solve_unambig }

/-- `tiny` of `build_biases` (`types.py` line 116), `0.000000001`. -/
def tinyQ : ℚ := 1 / 1000000000

/-- Python-dict update on an association list keyed by constraints:
overwrite in place, or append a new entry. -/
def assocSet (m : List (Constraint × ℚ)) (k : Constraint) (v : ℚ) :
    List (Constraint × ℚ) :=
  if m.any (fun kv => kv.1 == k) then
    m.map (fun kv => if kv.1 == k then (kv.1, v) else kv)
  else m ++ [(k, v)]

/-- `BasePruningMethod.build_biases` (`types.py` lines 115-119): clamp each
candidate score below by `tiny`, normalize by the minimum, add `tiny`.
Python computes on floats; the model computes exactly on `ℚ`. -/
def build_biases (cands : List Candidate) : List (Constraint × ℚ) :=
  let scores := cands.foldl (fun m x => assocSet m x.constraint (max tinyQ x.score)) []
  let min_score := match scores with
    | [] => 1
    | s :: rest => (rest.map (·.2)).foldl min s.2
  scores.map (fun kv => (kv.1, kv.2 / min_score + tinyQ))

/-- `BlackBoxPruner.reward_parent_relative` (`blackbox.py` lines 214-220):
multiply by 10 the bias of every linear constraint whose `y` view is a
parent of its `x` view. -/
def reward_parent_relative (example_ : MView) (biases : List (Constraint × ℚ)) :
    List (Constraint × ℚ) :=
  biases.map (fun kv =>
    match kv.1.x_id with
    | some x =>
      match example_.find_anchor kv.1.y_id with
      | some yv =>
        if yv.1.is_parent_of_name x.viewName then (kv.1, kv.2 * 10) else kv
      | none => kv
    | none => kv)

/-- `is_x_constr` (`blackbox.py` lines 33-45): `some true` for a horizontal
constraint, `some false` for a vertical one, `none` for the
mixed-dimensions error. -/
def is_x_constr (c : Constraint) : Option Bool :=
  match c.x_id with
  | some x =>
    if x.attr.isHorizontal && c.y_id.attr.isHorizontal then some true
    else if x.attr.isVertical && c.y_id.attr.isVertical then some false
    else none
  | none => some c.y_id.attr.isHorizontal

/-- One per-axis Max-SMT instance assembled by `BlackBoxPruner.__call__`:
the hard assertion list, the weighted soft selector clauses, and the
selector-to-constraint name map. -/
structure Instance where
  hard : List Formula
  soft : List (String × ℚ)
  names : List (String × Constraint)
deriving DecidableEq, Repr

/-- The selector variable name of the `i`-th filtered constraint
(`"constr_var" + str(constr_idx)`). -/
def selName (i : ℕ) : String := "constr_var" ++ toString i

/-- The instance-assembly part of `BlackBoxPruner.__call__` (`blackbox.py`
lines 232-264): biases, conformance sampling, selector partitioning by
`is_x_constr`, and per-conformance hard assertions — conformance pins,
layout axioms for the targets, and selector-guarded candidate constraints.
Fails (`none`) when `is_x_constr` raises on a mixed-dimension constraint or
when a filtered constraint is missing from the bias map (a Python
`KeyError`). -/
def buildInstances (p : Pruner) (cands : List Candidate)
    (constraints : List Constraint) : Option (Instance × Instance × List Conformance) :=
  let biases0 := build_biases cands
  let biases := if p.solve_unambig then reward_parent_relative p.example_ biases0 else biases0
  let confs := conformance_range p.min_conf p.max_conf 5
  let step := fun (acc : List (ℕ × Constraint × Bool)) (ic : ℕ × Constraint) =>
    match is_x_constr ic.2 with
    | none => none
    | some flag =>
      match biases.lookup ic.2 with
      | none => none
      | some _ => some (acc ++ [(ic.1, ic.2, flag)])
  match constraints.enum.foldlM step [] with
  | none => none
  | some flags =>
    let xNames := flags.filterMap (fun f =>
      if f.2.2 then some (selName f.1, f.2.1) else none)
    let yNames := flags.filterMap (fun f =>
      if !f.2.2 then some (selName f.1, f.2.1) else none)
    let xSoft := flags.filterMap (fun f =>
      if f.2.2 then (biases.lookup f.2.1).map (fun b => (selName f.1, b)) else none)
    let ySoft := flags.filterMap (fun f =>
      if !f.2.2 then (biases.lookup f.2.1).map (fun b => (selName f.1, b)) else none)
    let tX := p.example_.aid .left
    let tY := p.example_.aid .top
    let tW := p.example_.aid .width
    let tH := p.example_.aid .height
    let xHard := confs.enum.flatMap (fun kc =>
      addConfDims kc.2 kc.1 tX tY tW tH
      ++ layoutAxioms kc.1 p.targets true
      ++ flags.filterMap (fun f =>
        if f.2.2 then some (constraintImp (selName f.1) f.2.1 kc.1) else none))
    let yHard := confs.enum.flatMap (fun kc =>
      addConfDims kc.2 kc.1 tX tY tW tH
      ++ layoutAxioms kc.1 p.targets false
      ++ flags.filterMap (fun f =>
        if !f.2.2 then some (constraintImp (selName f.1) f.2.1 kc.1) else none))
    some ({ hard := xHard, soft := xSoft, names := xNames },
          { hard := yHard, soft := ySoft, names := yNames }, confs)

/-! ## The solver abstraction and the solve loop -/

/-- A Z3 model as observed by the pruner: the declared selector names, the
boolean interpretation of selectors, and the (possibly missing) rational
interpretation of each anchor variable per conformance index. -/
structure SmtModel where
  decls : List String
  boolV : String → Bool
  realV : AnchorId → ℕ → Option ℚ

/-- The result of `solver.check()`. -/
inductive CheckResult where
  | sat (m : SmtModel)
  | unsat
  | unknown

/-- The Z3 `Optimize` solver as an oracle: from the asserted hard formulas
and the soft clauses to a check result. -/
abbrev Oracle := List Formula → List (String × ℚ) → CheckResult

abbrev Vals := List (AnchorId × ℚ)

/-- The selector names of the model's declarations that are in the name map
and interpreted true (`new_cand` in `synth_unambiguous`). -/
def modelTrueSels (m : SmtModel) (namesMap : List (String × Constraint)) : List String :=
  m.decls.filter (fun n => (namesMap.lookup n).isSome && m.boolV n)

/-- The selected constraints of a model (`output` in `synth_unambiguous`,
lines 194-195). -/
def modelOutput (m : SmtModel) (namesMap : List (String × Constraint)) : List Constraint :=
  (modelTrueSels m namesMap).filterMap (fun n => namesMap.lookup n)

/-- `extract_model_valuations` (`integration/z3.py` lines 33-43): read every
named anchor at the given conformance index; fails when a variable is
missing from the model. -/
def extractVals (m : SmtModel) (idx : ℕ) (names : List AnchorId) : Option Vals :=
  names.mapM (fun id => (m.realV id idx).map (fun q => (id, q)))

/-- `get_ancs` over a box list: x-anchors on the horizontal axis, y-anchors
on the vertical one. -/
def axisAnchorIds (boxes : List MView) (xdim : Bool) : List AnchorId :=
  boxes.flatMap (fun b => if xdim then b.xAnchorIds else b.yAnchorIds)

/-- Equality of selector sets represented as lists (`frozenset` equality). -/
def listSetEq (a b : List String) : Bool :=
  a.all (b.contains ·) && b.all (a.contains ·)

/-- `BlackBoxPruner.synth_unambiguous` (`blackbox.py` lines 148-212).
State is rebuilt functionally instead of by push/pop: each iteration checks
the base assertions plus one blocking clause per recorded invalid selector
set; on sat, the focus anchors are pinned to the mid-conformance values of
the model and an alternate placement of the non-focus anchors is sought.
`dryRun` short-circuits before that second check.  The fuel argument bounds
the CEGIS iterations (the Python loop is unbounded); `none` covers fuel
exhaustion and all raising paths (unsat or unknown first check, missing
model variables, unknown second check, a repeated invalid candidate). -/
def synthUnambiguous (oracle : Oracle) (hard : List Formula)
    (soft : List (String × ℚ)) (namesMap : List (String × Constraint))
    (example_ : MView) (targets : List MView) (confsLen : ℕ) (xdim : Bool)
    (dryRun : Bool) : ℕ → List (List String) → Option (List Constraint × Vals × Vals)
  | 0, _ => none
  | fuel + 1, invalids =>
    let state := hard ++ invalids.map Formula.blockClause
    match oracle state soft with
    | .sat m =>
      let newCand := modelTrueSels m namesMap
      let confIdx := confsLen / 2
      let names := axisAnchorIds (example_ :: targets) xdim
      match extractVals m confIdx names with
      | none => none
      | some vals =>
        let accept : Option (List Constraint × Vals × Vals) := do
          let mins ← extractVals m 0 names
          let maxs ← extractVals m (confsLen - 1) names
          pure (modelOutput m namesMap, mins, maxs)
        if dryRun then accept
        else
          let pins := (axisAnchorIds [example_] xdim).map (fun id =>
            Formula.cmp .eq (.v id confIdx) (.lit ((vals.lookup id).getD 0)))
          let placEqs := (targets.filter (fun c => c.name != example_.name)).flatMap
            (fun child => (if xdim then child.xAnchorIds else child.yAnchorIds).map
              (fun id => (id, confIdx, (vals.lookup id).getD 0)))
          let state2 := hard ++ newCand.map (fun s => Formula.selLit s true)
            ++ pins ++ [Formula.notConjEq placEqs]
          match oracle state2 soft with
          | .unsat => accept
          | .sat _ =>
            if invalids.any (fun s => listSetEq s newCand) then none
            else synthUnambiguous oracle hard soft namesMap example_ targets
              confsLen xdim dryRun fuel (invalids ++ [newCand])
          | .unknown => none
    | _ => none

/-- A single Max-SMT solve with no blocking clauses and no refinement: check
the hard assertions once; on sat, return the constraints whose selector is
true in the model together with the anchor valuations extracted at
conformance index `0` and at index `confsLen - 1`. -/
def dryRunSolve (oracle : Oracle) (hard : List Formula)
    (soft : List (String × ℚ)) (namesMap : List (String × Constraint))
    (example_ : MView) (targets : List MView) (confsLen : ℕ) (xdim : Bool) :
    Option (List Constraint × Vals × Vals) :=
  match oracle hard soft with
  | .sat m =>
    let names := axisAnchorIds (example_ :: targets) xdim
    match extractVals m (confsLen / 2) names with
    | none => none
    | some _ => do
      let mins ← extractVals m 0 names
      let maxs ← extractVals m (confsLen - 1) names
      pure (modelOutput m namesMap, mins, maxs)
  | _ => none

/-- `dict(x, **y)`: the entries of `x` with values overridden by `y` where
present, followed by the entries of `y` with fresh keys. -/
def dictMerge (a b : Vals) : Vals :=
  a.map (fun kv => (kv.1, (b.lookup kv.1).getD kv.2))
  ++ b.filter (fun kv => (a.lookup kv.1).isNone)

/-- The default valuation returned on an empty filtered constraint list
(`blackbox.py` lines 225-230): every anchor of every view of the example
tree mapped to its observed value. -/
def defaultVals (example_ : MView) : Vals :=
  example_.preorder.flatMap (fun box =>
    box.anchorIdVals.map (fun kv => (kv.1, to_frac kv.2)))

/-- `BlackBoxPruner.__call__` (`blackbox.py` lines 222-277): filter the
candidate constraints; on an empty result return no constraints and the
observed anchor values, otherwise assemble the two per-axis instances and
solve each (with CEGIS refinement iff `solve_unambig`, otherwise in dry-run
mode), concatenating the selected constraints and merging the valuation
maps. -/
def blackBoxCall (fuel : ℕ) (p : Pruner) (oracle : Oracle)
    (cands : List Candidate) : Option (List Constraint × Vals × Vals) :=
  let constraints := filter_constraints (cands.map (·.constraint))
  if constraints.isEmpty then
    some ([], defaultVals p.example_, defaultVals p.example_)
  else
    match buildInstances p cands constraints with
    | none => none
    | some (xi, yi, confs) =>
      match synthUnambiguous oracle xi.hard xi.soft xi.names p.example_ p.targets
          confs.length true (!p.solve_unambig) fuel [] with
      | none => none
      | some (xcs, xmin, xmax) =>
        match synthUnambiguous oracle yi.hard yi.soft yi.names p.example_ p.targets
            confs.length false (!p.solve_unambig) fuel [] with
        | none => none
        | some (ycs, ymin, ymax) =>
          some (xcs ++ ycs, dictMerge xmin ymin, dictMerge xmax ymax)

/-! ## `HierarchicalPruner` (`hierarchical.py`) -/

/-- The child-scan of `relevant_constraint` (`hierarchical.py` lines 57-66):
the first child matching the constraint's `x` or `y` view decides. -/
def relevantGo (focus : MView) (c : Constraint) (x : AnchorId) : List MView → Bool
  | [] => false
  | ch :: rest =>
    if ch.name == x.viewName then
      focus.name == c.y_id.viewName || focus.is_parent_of_name c.y_id.viewName
    else if ch.name == c.y_id.viewName then
      focus.name == x.viewName || focus.is_parent_of_name x.viewName
    else relevantGo focus c x rest

/-- `HierarchicalPruner.relevant_constraint` (`hierarchical.py` lines 57-71). -/
def relevant_constraint (focus : MView) (c : Constraint) : Bool :=
  match c.x_id with
  | some x => relevantGo focus c x focus.children
  | none => focus.children.any (fun ch => ch.name == c.y_id.viewName)

/-- The black-box pruning subroutine as used by `HierarchicalPruner.__call__`
(construct a `BlackBoxPruner` over focus examples, bounds, the unambiguity
flag and a target list, then call it on the relevant candidates). -/
abbrev BBFun :=
  List MView → SizeBounds → Bool → List MView → List Candidate →
    Option (List Constraint × Vals × Vals)

/-- `bbOfOracle` instantiates the subroutine with the modelled
`BlackBoxPruner` (`hierarchical.py` lines 161-163). -/
def bbOfOracle (fuel : ℕ) (oracle : Oracle) : BBFun :=
  fun exs bounds unambig targets rel =>
    match mkBlackBoxPruner exs bounds unambig (some targets) with
    | none => none
    | some p => blackBoxCall fuel p oracle rel

/-- Read a child conformance out of a valuation map (`hierarchical.py`
lines 175-176): the child's width, height, left and top anchors; a missing
key is the Python `KeyError`. -/
def confOfVals (vals : Vals) (child : MView) : Option Conformance := do
  let w ← vals.lookup (child.aid .width)
  let h ← vals.lookup (child.aid .height)
  let x ← vals.lookup (child.aid .left)
  let y ← vals.lookup (child.aid .top)
  pure ⟨w, h, x, y⟩

/-- The per-child worklist entries pushed by one iteration of
`HierarchicalPruner.__call__` (`hierarchical.py` lines 171-179, with the
always-taken `infer_with_z3` branch): each child paired with the
corresponding child of every focus example and its min/max conformances. -/
def childEntries (focus : MView) (fexamples : List MView) (mins maxs : Vals) :
    Option (List (MView × List MView × Conformance × Conformance)) :=
  focus.children.enum.mapM (fun p => do
    let clo ← confOfVals mins p.2
    let chi ← confOfVals maxs p.2
    let ce ← fexamples.mapM (fun fe => fe.children.get? p.1)
    pure (p.2, ce, clo, chi))

/-- The worklist loop of `HierarchicalPruner.__call__` (`hierarchical.py`
lines 154-182) with the hard-wired flags `infer_with_z3 = True`,
`validate = False`, `integrate = False`.  The Python worklist is a stack
(`pop()` takes the most recently appended entry); the model keeps the stack
top at the head, so the children of one iteration are pushed in reverse.
Fuel bounds the number of iterations (one per view of the tree). -/
def hierarchicalLoop (bb : BBFun) (unambig : Bool) (cands : List Candidate) :
    ℕ → List (MView × List MView × Conformance × Conformance) → List Constraint →
    Option (List Constraint)
  | _, [], acc => some acc
  | 0, _ :: _, _ => none
  | fuel + 1, (focus, fexamples, lo, hi) :: rest, acc =>
    let relevant := cands.filter (fun cc => relevant_constraint focus cc.constraint)
    let targets := focus :: focus.children
    let bounds := confs_to_bounds lo hi
    match bb fexamples bounds unambig targets relevant with
    | none => none
    | some (fout, mins, maxs) =>
      let acc2 := fout.foldl setInsert acc
      match childEntries focus fexamples mins maxs with
      | none => none
      | some entries =>
        hierarchicalLoop bb unambig cands fuel (entries.reverse ++ rest) acc2

/-- The state of a constructed `HierarchicalPruner` (`hierarchical.py`
lines 23-55). -/
structure HPruner where
  hierarchy : MView
  examples : List MView
  min_conf : Conformance
  max_conf : Conformance
  solve_unambig : Bool

/-- `HierarchicalPruner.__init__` (`hierarchical.py` lines 23-55). -/
def mkHierarchicalPruner (examples : List MView) (bounds : SizeBounds)
    (solve_unambig : Bool) : Option HPruner :=
  match examples with
  | [] => none
  | e :: rest =>
    let cr := confRangeOfExamples e rest bounds
    some { hierarchy := e, examples := e :: rest, min_conf := cr.1,
           max_conf := cr.2, solve_unambig := solve_unambig }

/-- `HierarchicalPruner.__call__` (`hierarchical.py` lines 142-190): run the
worklist from the root and return the accumulated constraint set together
with two empty valuation maps (`return (list(output_constrs), {}, {})`). -/
def hierarchicalCall (bb : BBFun) (p : HPruner) (cands : List Candidate)
    (fuel : ℕ) : Option (List Constraint × Vals × Vals) :=
  (hierarchicalLoop bb p.solve_unambig cands fuel
      [(p.hierarchy, p.examples, p.min_conf, p.max_conf)] []).map
    (fun cs => (cs, [], []))

/-! ## Numpy template instantiation (`src/instantiation.py`, `src/types.py`)

This part of the repository has its own `View`/`Anchor` types
(`src/types.py`, pydantic models with float rects); they are embedded
separately from the pipeline views above, with rationals for the
coordinates. -/

namespace Inst

/-- `View` (`src/types.py`): name, rect `(left, top, right, bottom)`,
children.  The parent back-link set by `model_post_init` is carried
explicitly by `AnchorRec` below. -/
inductive PView where
  | node (name : String) (left top right bottom : ℚ) (children : List PView)

namespace PView

def name : PView → String
  | .node n _ _ _ _ _ => n

def left : PView → ℚ
  | .node _ l _ _ _ _ => l

def top : PView → ℚ
  | .node _ _ t _ _ _ => t

def right : PView → ℚ
  | .node _ _ _ r _ _ => r

def bottom : PView → ℚ
  | .node _ _ _ _ b _ => b

def children : PView → List PView
  | .node _ _ _ _ _ cs => cs

/-- `View.__eq__` (`src/types.py` lines 18-21): equality by name and rect
(children are not compared). -/
def viewEq (a b : PView) : Bool :=
  a.name == b.name && a.left == b.left && a.top == b.top
    && a.right == b.right && a.bottom == b.bottom

mutual
/-- `View._flattened_views_in_subtree` (`src/types.py` `model_post_init`):
the view followed by the flattened subtrees of its children. -/
def flatViews : PView → List PView
  | .node n l t r b cs => .node n l t r b cs :: flatViewsList cs
def flatViewsList : List PView → List PView
  | [] => []
  | v :: vs => flatViews v ++ flatViewsList vs
end

end PView

/-- `View.anchors()` order (`src/types.py` lines 34-45): left, right, top,
bottom, center_x, center_y, width, height. -/
def anchorOrder : List Attr :=
  [.left, .right, .top, .bottom, .center_x, .center_y, .width, .height]

/-- An anchor of the reference example together with the parent of its view
(the pydantic `Anchor` object plus the `view.parent` back-link). -/
structure AnchorRec where
  view : PView
  parent : Option PView
  type : Attr

mutual
/-- `View._anchors_in_subtree` (`src/types.py` `model_post_init`): the 8
anchors of the view in `anchors()` order, then the anchors of each child
subtree, with parent back-links wired. -/
def anchorRecs (parent : Option PView) : PView → List AnchorRec
  | .node n l t r b cs =>
    anchorOrder.map (fun a =>
      { view := PView.node n l t r b cs, parent := parent, type := a })
    ++ anchorRecsList (some (PView.node n l t r b cs)) cs
def anchorRecsList (parent : Option PView) : List PView → List AnchorRec
  | [] => []
  | v :: vs => anchorRecs parent v ++ anchorRecsList parent vs
end

/-- `Optional[View]` equality as numpy compares the `parents` array
(`parents[:, None] == parents[None, :]`): `None == None` is true,
`Some/None` false, views by `View.__eq__`. -/
def optViewEq : Option PView → Option PView → Bool
  | none, none => true
  | some a, some b => PView.viewEq a b
  | _, _ => false

/-- `LinearConstraint` (`src/types.py` lines 93-101) as emitted by
`template_instantiation`: `y`, optional `x`, and optional (unknown when
`none`) parameters `a`, `b`. -/
structure Sketch where
  y : AnchorRec
  x : Option AnchorRec
  a : Option ℚ
  b : Option ℚ

/-! ### The sweep-line visibility matrix (`compute_visibility_matrix`) -/

/-- An interval-tree entry: interval begin/end, and the payload anchor given
as its view and attribute. -/
structure EdgeEntry where
  ebegin : ℚ
  eend : ℚ
  view : PView
  type : Attr

/-- `anchor_to_index_map` lookup (`instantiation.py` lines 24-26): the dict
comprehension maps each `(view name, type)` key to the index of its last
occurrence in the anchor list. -/
def anchorIndex (ancs : List AnchorRec) (nm : String) (t : Attr) : Option ℕ :=
  ((ancs.enum.filter (fun p => p.2.view.name == nm && p.2.type == t)).map (·.1)).getLast?

/-- Set both `(i, j)` and `(j, i)` in a boolean matrix (the paired
`visible_matrix[...] = True` assignments). -/
def markSym (M : ℕ → ℕ → Bool) (i j : ℕ) : ℕ → ℕ → Bool :=
  fun a b => ((a == i && b == j) || (a == j && b == i)) || M a b

/-- Fold `markSym` over a list of index pairs. -/
def markPairs (M : ℕ → ℕ → Bool) (ps : List (ℕ × ℕ)) : ℕ → ℕ → Bool :=
  ps.foldl (fun M p => markSym M p.1 p.2) M

/-- The all-false matrix (`np.zeros(..., dtype=bool)`). -/
def zeroM : ℕ → ℕ → Bool := fun _ _ => false

/-- Pointwise OR of two boolean matrices (`|=`). -/
def orM (A B : ℕ → ℕ → Bool) : ℕ → ℕ → Bool := fun i j => A i j || B i j

/-- The index pairs marked for one adjacent anchor pair of a sweep line
(`instantiation.py` lines 86-105 and 128-147): skip pairs from the same
view; otherwise mark the two edge anchors and the two `centerT` anchors of
their views.  A missing index lookup would be a Python `KeyError`; it cannot
occur when `ancs` contains the full anchor set of the hierarchy. -/
def pairIdx (ancs : List AnchorRec) (a b : PView × Attr) (centerT : Attr) :
    List (ℕ × ℕ) :=
  if a.1.name == b.1.name then []
  else
    (match anchorIndex ancs a.1.name a.2, anchorIndex ancs b.1.name b.2 with
     | some i, some j => [(i, j)]
     | _, _ => []) ++
    (match anchorIndex ancs a.1.name centerT, anchorIndex ancs b.1.name centerT with
     | some i, some j => [(i, j)]
     | _, _ => [])

/-- Insert into an ascending list, after all elements less-or-equal under
`le` (so equal-key elements keep their original relative order). -/
def stableInsert (le : α → α → Bool) (x : α) : List α → List α
  | [] => [x]
  | y :: ys => if le y x then y :: stableInsert le x ys else x :: y :: ys

/-- A stable ascending sort.  Python's `list.sort` is stable; for a total
transitive comparison the stable sorted permutation is unique, so insertion
sort gives the same list. -/
def stableSort (le : α → α → Bool) (l : List α) : List α :=
  l.foldl (fun acc x => stableInsert le x acc) []

/-- Lexicographic comparison of sort keys (Python tuple `<=` on pairs of
rationals). -/
def keyLe (a b : ℚ × ℚ) : Bool :=
  a.1 < b.1 || (a.1 == b.1 && a.2 ≤ b.2)

/-- The sort key of a horizontal edge's anchor (`instantiation.py` lines
72-79): `(view.center_y, top edge position or bottom edge position)`. -/
def hKey (e : EdgeEntry) : ℚ × ℚ :=
  ((e.view.top + e.view.bottom) / 2,
   if e.type == Attr.top then e.view.top else e.view.bottom)

/-- The sort key of a vertical edge's anchor (`instantiation.py` lines
112-121): `(view.center_x, left edge position or right edge position)`. -/
def vKey (e : EdgeEntry) : ℚ × ℚ :=
  ((e.view.left + e.view.right) / 2,
   if e.type == Attr.left then e.view.left else e.view.right)

/-- Deduplicating insertion for the event-coordinate sets.  A Python `set`
iterates in an unspecified order; the resulting matrix does not depend on
the processing order of the sweep lines, so the model fixes first-insertion
order. -/
def dedupQ (l : List ℚ) : List ℚ :=
  l.foldl (fun acc q => if q ∈ acc then acc else acc ++ [q]) []

/-- The adjacent pairs of a sweep-line sequence. -/
def adjacent (l : List (PView × Attr)) : List ((PView × Attr) × (PView × Attr)) :=
  l.zip l.tail

/-- The index pairs marked by `compute_visibility_matrix`
(`instantiation.py` lines 11-149): both sweep directions over the interval
trees.  Interval-tree queries use the half-open containment
`begin <= c < end` of the `intervaltree` package. -/
def sweepPairs (ancs : List AnchorRec) (root : PView) : List (ℕ × ℕ) :=
  let views := (root.flatViews).filter (fun v => !PView.viewEq v root)
  let hTree := views.flatMap (fun v =>
    [{ ebegin := v.left, eend := v.right, view := v, type := Attr.top },
     { ebegin := v.left, eend := v.right, view := v, type := Attr.bottom }])
  let vTree := views.flatMap (fun v =>
    [{ ebegin := v.top, eend := v.bottom, view := v, type := Attr.left },
     { ebegin := v.top, eend := v.bottom, view := v, type := Attr.right }])
  let hEvents := dedupQ ([root.top, root.bottom]
    ++ views.flatMap (fun v => [v.top, v.bottom]))
  let vEvents := dedupQ ([root.left, root.right]
    ++ views.flatMap (fun v => [v.left, v.right]))
  let vSweep := vEvents.flatMap (fun c =>
    let inter := hTree.filter (fun e => e.ebegin ≤ c && c < e.eend)
    let sorted := stableSort (fun a b => keyLe (hKey a) (hKey b)) inter
    let seq := (root, Attr.top) :: sorted.map (fun e => (e.view, e.type))
      ++ [(root, Attr.bottom)]
    (adjacent seq).flatMap (fun p => pairIdx ancs p.1 p.2 Attr.center_y))
  let hSweep := hEvents.flatMap (fun c =>
    let inter := vTree.filter (fun e => e.ebegin ≤ c && c < e.eend)
    let sorted := stableSort (fun a b => keyLe (vKey a) (vKey b)) inter
    let seq := (root, Attr.left) :: sorted.map (fun e => (e.view, e.type))
      ++ [(root, Attr.right)]
    (adjacent seq).flatMap (fun p => pairIdx ancs p.1 p.2 Attr.center_x))
  vSweep ++ hSweep

/-- `compute_visibility_matrix` (`instantiation.py` lines 11-149): fold the
symmetric marks over the collected index pairs, starting from the zero
matrix. -/
def computeVisibilityMatrix (ancs : List AnchorRec) (root : PView) :
    ℕ → ℕ → Bool :=
  markPairs zeroM (sweepPairs ancs root)

/-- `visible_matrix` of `template_instantiation` (`instantiation.py` lines
196-200): the per-example matrices combined by pointwise OR. -/
def combinedVisibility (ancs : List AnchorRec) (examples : List PView) :
    ℕ → ℕ → Bool :=
  examples.foldl (fun M ex => orM M (computeVisibilityMatrix ancs ex)) zeroM

/-! ### The predicate matrices and the emission loop -/

/-- Lift a predicate on anchor pairs to an index matrix over the anchor
list. -/
def liftPred (ancs : List AnchorRec) (p : AnchorRec → AnchorRec → Bool)
    (i j : ℕ) : Bool :=
  match ancs.get? i, ancs.get? j with
  | some a, some b => p a b
  | _, _ => false

/-- `same_view_matrix`: views compared by `View.__eq__`. -/
def sameViewP (a b : AnchorRec) : Bool := PView.viewEq a.view b.view

/-- `same_type_matrix`. -/
def sameTypeP (a b : AnchorRec) : Bool := a.type == b.type

/-- `parent_matrix[i, j]`: the view of anchor `j` is in the children set of
the view of anchor `i` (membership by `View.__eq__`). -/
def parentP (a b : AnchorRec) : Bool :=
  a.view.children.any (fun c => PView.viewEq c b.view)

/-- `sibling_matrix`: different views with equal parents. -/
def siblingP (a b : AnchorRec) : Bool :=
  !PView.viewEq a.view b.view && optViewEq a.parent b.parent

/-- `dual_type_matrix`: `(right, left)` or `(bottom, top)`. -/
def dualTypeP (a b : AnchorRec) : Bool :=
  (a.type == Attr.right && b.type == Attr.left)
    || (a.type == Attr.bottom && b.type == Attr.top)

/-- The numpy reshape/any/repeat view-level promotion (`instantiation.py`
lines 243-254): entry `(i, j)` of the view matrix is set when any of the
8×8 anchor block of the two views is set in the anchor matrix. -/
def viewBlockAny (M : ℕ → ℕ → Bool) (i j : ℕ) : Bool :=
  (List.range 8).any (fun a =>
    (List.range 8).any (fun b => M (i / 8 * 8 + a) (j / 8 * 8 + b)))

/-- `template_instantiation` (`instantiation.py` lines 152-305): emit
aspect-ratio, parent-relative, offset/alignment and constant sketches over
the anchor pairs of the reference example.  `none` embeds the
`examples[0]` IndexError on an empty example list. -/
def templateInstantiation (examples : List PView) : Option (List Sketch) :=
  match examples with
  | [] => none
  | e :: _ =>
    let ancs := anchorRecs none e
    let visible := combinedVisibility ancs examples
    let aspectM := fun i j => liftPred ancs (fun a b =>
      sameViewP a b && (a.type.isSize && b.type.isSize)
        && (a.type.isHorizontal && b.type.isVertical)) i j
    let parentRelM := fun i j => liftPred ancs (fun a b =>
      parentP a b && (a.type.isSize && b.type.isSize)
        && ((a.type.isHorizontal && b.type.isHorizontal)
            || (a.type.isVertical && b.type.isVertical))) i j
    let offsetM := fun i j =>
      (liftPred ancs (fun a b =>
        parentP a b && (a.type.isPosition && b.type.isPosition)
          && sameTypeP a b) i j && visible i j)
      || (liftPred ancs (fun a b =>
        siblingP a b && (a.type.isPosition && b.type.isPosition)
          && dualTypeP a b) i j && visible i j)
    let hViewVis := viewBlockAny (fun i j =>
      liftPred ancs (fun a b => a.type.isHorizontal && b.type.isHorizontal) i j
        && visible i j)
    let vViewVis := viewBlockAny (fun i j =>
      liftPred ancs (fun a b => a.type.isVertical && b.type.isVertical) i j
        && visible i j)
    let alignM := fun i j =>
      (liftPred ancs (fun a b =>
        siblingP a b && (a.type.isHorizontal && b.type.isHorizontal)
          && (a.type.isPosition && b.type.isPosition) && sameTypeP a b) i j
        && vViewVis i j)
      || (liftPred ancs (fun a b =>
        siblingP a b && (a.type.isVertical && b.type.isVertical)
          && (a.type.isPosition && b.type.isPosition) && sameTypeP a b) i j
        && hViewVis i j)
    let pairSketches := ancs.enum.flatMap (fun pi =>
      ancs.enum.flatMap (fun pj =>
        (if aspectM pi.1 pj.1 then
          [{ y := pi.2, x := some pj.2, a := none, b := some 0 : Sketch }] else [])
        ++ (if parentRelM pi.1 pj.1 then
          [{ y := pi.2, x := some pj.2, a := none, b := some 0 : Sketch }] else [])
        ++ (if offsetM pi.1 pj.1 || alignM pi.1 pj.1 then
          [{ y := pi.2, x := some pj.2, a := some 1, b := none : Sketch }] else [])))
    let constSketches := ancs.filterMap (fun a =>
      if a.type.isSize then
        some { y := a, x := none, a := some 0, b := none : Sketch }
      else none)
    some (pairSketches ++ constSketches)

end Inst

/-! ## Shape predicates on formulas -/

/-- The shape of the assertions `add_containment_axioms` emits: a top-level
`>=` or `<=` comparison between two anchor variables. -/
def containmentFormB : Formula → Bool
  | .cmp .ge (.v _ _) (.v _ _) => true
  | .cmp .le (.v _ _) (.v _ _) => true
  | _ => false

/-- The shape of the clauses `add_determinism` emits: selector-guarded 0-1
integer definitions and integer-sum bounds. -/
def determinismFormB : Formula → Bool
  | .intImp _ _ _ _ => true
  | .intSumLe _ _ => true
  | .intSumEq _ _ => true
  | _ => false

/-! ## Concrete fixtures

A parent view `p = [0, 0, 100, 100]` with one child `c = [10, 10, 60, 60]`
(the spec's "single fixed child" scenario; `c` has aspect ratio
`width/height = 1` in every example). -/

def exC : MView := .node "c" 10 10 60 60 []

def exP : MView := .node "p" 0 0 100 100 [exC]

/-- A `SIZE_ASPECT_RATIO` candidate constraint `c.width = 1 * c.height`
fitting the example (`child.width / child.height = 1`). -/
def arC : Constraint :=
  { kind := .size_aspect, y_id := ⟨"c", .width⟩, x_id := some ⟨"c", .height⟩,
    a := 1, b := 0, op := .eq, priority := .required, sample_count := 1,
    is_falsified := false }

/-- A `POS_LTRB_OFFSET` candidate constraint `c.left = p.left + 10`. -/
def posC : Constraint :=
  { kind := .pos_offset, y_id := ⟨"c", .left⟩, x_id := some ⟨"p", .left⟩,
    a := 1, b := 10, op := .eq, priority := .required, sample_count := 1,
    is_falsified := false }

/-- The pruner built from the one example with empty bounds and
`solve_unambig = False` (all conformance bounds collapse to the example's
own geometry). -/
def bbP : Pruner :=
  { example_ := exP, targets := MView.preorder exP,
    min_conf := ⟨100, 100, 0, 0⟩, max_conf := ⟨100, 100, 0, 0⟩,
    solve_unambig := false }

/-- The same pruner with unambiguity enabled. -/
def bbPu : Pruner := { bbP with solve_unambig := true }

/-- A trivial solver oracle (every check unsat); the claims settled on the
empty-filter path do not consult it. -/
def oracle0 : Oracle := fun _ _ => .unsat

/-- The hard assertions of the horizontal instance built for the
`posC` candidate. -/
def c2xHard : List Formula :=
  ((buildInstances bbP [⟨posC, 1⟩] (filter_constraints [posC])).map
    (fun r => r.1.hard)).getD []

/-- The hard assertions of the horizontal instance built with unambiguity
enabled. -/
def c3xHard : List Formula :=
  ((buildInstances bbPu [⟨posC, 1⟩] (filter_constraints [posC])).map
    (fun r => r.1.hard)).getD []

/-- A valuation satisfying every hard assertion of `c2xHard` while placing
the child entirely to the right of the parent (`c.left = 500`,
`c.right = 600` versus `p.right = 100`): the selector is false and no
containment axiom constrains the child. -/
def ν2 : Valuation :=
  { realV := fun id _ =>
      match id.viewName, id.attr with
      | "p", .left => 0
      | "p", .right => 100
      | "p", .width => 100
      | "p", .center_x => 50
      | "p", .top => 0
      | "p", .bottom => 100
      | "p", .height => 100
      | "p", .center_y => 50
      | "c", .left => 500
      | "c", .right => 600
      | "c", .width => 100
      | "c", .center_x => 550
      | _, _ => 0
    boolV := fun _ => false
    intV := fun _ => 0 }

/-- The vertical-axis hard assertions built with unambiguity enabled. -/
def c3yHard : List Formula :=
  ((buildInstances bbPu [⟨posC, 1⟩] (filter_constraints [posC])).map
    (fun r => r.2.1.hard)).getD []

/-- The two constraints of the combine-bounds counterexample: same anchors,
different operators, offsets within the tolerance, but different gains
(`y ≤ 2x + 10` and `y ≥ 3x + 12`). -/
def c8a : Constraint :=
  { kind := .pos_offset, y_id := ⟨"v", .left⟩, x_id := some ⟨"q", .left⟩,
    a := 2, b := 10, op := .le, priority := .required, sample_count := 1,
    is_falsified := false }

def c8b : Constraint :=
  { kind := .pos_offset, y_id := ⟨"v", .left⟩, x_id := some ⟨"q", .left⟩,
    a := 3, b := 12, op := .ge, priority := .required, sample_count := 1,
    is_falsified := false }

/-- The single-view worklist fixture for the hierarchical pruner. -/
def hp9 : HPruner :=
  { hierarchy := exC, examples := [exC], min_conf := ⟨50, 50, 10, 10⟩,
    max_conf := ⟨50, 50, 10, 10⟩, solve_unambig := false }

/-- A black-box subroutine stub returning one constraint and empty
valuations. -/
def bb9 : BBFun := fun _ _ _ _ _ => some ([posC], [], [])

/-- A single-view example for the template-instantiation witness. -/
def v0 : Inst.PView := .node "r" 0 0 80 40 []

/-- The width anchor of `v0`. -/
def v0w : Inst.AnchorRec := { view := v0, parent := none, type := .width }

/-- The height anchor of `v0`. -/
def v0h : Inst.AnchorRec := { view := v0, parent := none, type := .height }

/-! # Helper lemmas -/

theorem mem_setInsert {s : List Constraint} {c x : Constraint} :
    x ∈ setInsert s c ↔ x ∈ s ∨ x = c := by
  unfold setInsert
  split
  · constructor
    · exact Or.inl
    · rintro (h | rfl)
      · exact h
      · assumption
  · simp [List.mem_append]

theorem mem_foldl_setInsert_of_mem_init (f : Constraint → Constraint)
    (l : List Constraint) (init : List Constraint) (x : Constraint)
    (h : x ∈ init) : x ∈ l.foldl (fun out c => setInsert out (f c)) init := by
  induction l generalizing init with
  | nil => exact h
  | cons a rest ih => exact ih _ (mem_setInsert.mpr (Or.inl h))

theorem mem_foldl_setInsert_of_mem (f : Constraint → Constraint)
    (l : List Constraint) (init : List Constraint) (c : Constraint)
    (h : c ∈ l) : f c ∈ l.foldl (fun out c => setInsert out (f c)) init := by
  induction l generalizing init with
  | nil => cases h
  | cons a rest ih =>
    rcases List.mem_cons.mp h with rfl | h
    · exact mem_foldl_setInsert_of_mem_init f rest _ _ (mem_setInsert.mpr (Or.inr rfl))
    · exact ih _ h

theorem mem_foldl_setInsert (f : Constraint → Constraint)
    (l : List Constraint) (init : List Constraint) (x : Constraint)
    (h : x ∈ l.foldl (fun out c => setInsert out (f c)) init) :
    x ∈ init ∨ ∃ c ∈ l, x = f c := by
  induction l generalizing init with
  | nil => exact Or.inl h
  | cons a rest ih =>
    rcases ih _ h with h' | ⟨c, hc, rfl⟩
    · rcases mem_setInsert.mp h' with h'' | rfl
      · exact Or.inl h''
      · exact Or.inr ⟨a, List.mem_cons_self a rest, rfl⟩
    · exact Or.inr ⟨c, List.mem_cons_of_mem a hc, rfl⟩

theorem mem_combine_bounds {cs : List Constraint} {x : Constraint}
    (h : x ∈ combine_bounds cs) : ∃ c ∈ cs, x = combineStep cs c := by
  rcases mem_foldl_setInsert (combineStep cs) cs [] x h with h' | h'
  · cases h'
  · exact h'

theorem combineStep_mem_combine_bounds {cs : List Constraint} {c : Constraint}
    (h : c ∈ cs) : combineStep cs c ∈ combine_bounds cs :=
  mem_foldl_setInsert_of_mem (combineStep cs) cs [] c h

theorem combineStep_kind (cs : List Constraint) (c : Constraint) :
    (combineStep cs c).kind = c.kind := by
  simp only [combineStep]
  split <;> rfl

/-! # Claim theorems -/

/-- C7: `conformance_range` returns 2 or 3 conformances, the first being the
minimum and the last the maximum; for `scale > 2` it is exactly
`[min, mid, max]` with the componentwise average in the middle, and for
`scale <= 2` exactly the two endpoints. -/
theorem conformance_range_spec (mn mx : Conformance) (s : ℤ) :
    (conformance_range mn mx s).head? = some mn
    ∧ (conformance_range mn mx s).getLast? = some mx
    ∧ ((conformance_range mn mx s).length = 2 ∨ (conformance_range mn mx s).length = 3)
    ∧ conformance_range mn mx s =
        (if s ≤ 2 then [mn, mx]
         else [mn, ⟨(mn.w + mx.w) / 2, (mn.h + mx.h) / 2,
                    (mn.x + mx.x) / 2, (mn.y + mx.y) / 2⟩, mx]) := by
  unfold conformance_range
  by_cases h : s ≤ 2 <;> simp [h]

/-- C9: `HierarchicalPruner.__call__` always returns empty `min_vals` and
`max_vals` maps: whenever the call succeeds, the second and third components
of the result are empty. -/
theorem hierarchicalCall_empty_valuations (bb : BBFun) (p : HPruner)
    (cands : List Candidate) (fuel : ℕ) (res : List Constraint × Vals × Vals)
    (h : hierarchicalCall bb p cands fuel = some res) :
    res.2.1 = [] ∧ res.2.2 = [] := by
  unfold hierarchicalCall at h
  cases hl : hierarchicalLoop bb p.solve_unambig cands fuel
      [(p.hierarchy, p.examples, p.min_conf, p.max_conf)] [] with
  | none => rw [hl] at h; cases h
  | some cs =>
    rw [hl] at h
    have h2 : some ((cs, ([] : Vals), ([] : Vals))) = some res := h
    cases Option.some.inj h2
    exact ⟨rfl, rfl⟩

/-- C9 witness: a concrete single-view run returns `([posC], [], [])`, and
the theorem applies to it. -/
theorem hierarchicalCall_empty_valuations_witness :
    hierarchicalCall bb9 hp9 [] 1 = some ([posC], [], [])
    ∧ (([posC], ([] : Vals), ([] : Vals)).2.1 = []
       ∧ (([posC], ([] : Vals), ([] : Vals)).2.2 = [])) :=
  ⟨rfl, hierarchicalCall_empty_valuations bb9 hp9 [] 1 ([posC], [], []) rfl⟩

/-- C10: when the filtered constraint list is empty, `BlackBoxPruner.__call__`
returns no constraints and maps every anchor of the example tree to its
observed value in both valuation maps, for every solver oracle (no solver is
consulted). -/
theorem blackBoxCall_empty_filter_defaults (fuel : ℕ) (p : Pruner)
    (oracle : Oracle) (cands : List Candidate)
    (h : filter_constraints (cands.map (·.constraint)) = []) :
    blackBoxCall fuel p oracle cands
      = some ([], defaultVals p.example_, defaultVals p.example_) := by
  unfold blackBoxCall
  rw [h]
  rfl

/-- C10 witness: a single `SIZE_ASPECT_RATIO` candidate filters to nothing,
and the call returns the observed anchor values. -/
theorem blackBoxCall_empty_filter_defaults_witness :
    filter_constraints (([⟨arC, 1⟩] : List Candidate).map (·.constraint)) = []
    ∧ blackBoxCall 1 bbP oracle0 [⟨arC, 1⟩]
        = some ([], defaultVals bbP.example_, defaultVals bbP.example_) :=
  ⟨rfl, blackBoxCall_empty_filter_defaults 1 bbP oracle0 [⟨arC, 1⟩] rfl⟩

/-- C1 counterexample: the aspect-ratio candidate fitting the example
(`c.width = 1 * c.height` with `child.width / child.height = 1` in every
example) is removed by `filter_constraints`, and the pruner's returned
constraint list is empty — it does not contain a `SIZE_ASPECT_RATIO`
candidate. -/
theorem aspect_ratio_pruned_counterexample :
    arC.kind = ConstraintKind.size_aspect
    ∧ filter_constraints [arC] = []
    ∧ blackBoxCall 1 bbP oracle0 [⟨arC, 1⟩]
        = some ([], defaultVals exP, defaultVals exP) :=
  ⟨rfl, rfl, rfl⟩

/-- C1 (amended): every constraint surviving `filter_constraints` has a kind
other than `SIZE_ASPECT_RATIO`; aspect-ratio candidates are always removed
before solving. -/
theorem filter_constraints_no_aspect (cs : List Constraint) (c : Constraint)
    (h : c ∈ filter_constraints cs) : c.kind ≠ ConstraintKind.size_aspect := by
  rw [show filter_constraints cs
      = (combine_bounds (cs.filter (fun c => c.kind != ConstraintKind.size_aspect))).filter
          (fun c => c.op == CmpOp.eq) from rfl] at h
  have h1 : c ∈ combine_bounds (cs.filter (fun c => c.kind != ConstraintKind.size_aspect)) :=
    (List.mem_filter.mp h).1
  rcases mem_combine_bounds h1 with ⟨d, hd, rfl⟩
  rw [combineStep_kind]
  have := (List.mem_filter.mp hd).2
  simpa using this

/-- C1 witness: the offset constraint survives filtering and is not an
aspect-ratio constraint. -/
theorem filter_constraints_no_aspect_witness :
    posC ∈ filter_constraints [posC]
    ∧ posC.kind ≠ ConstraintKind.size_aspect :=
  ⟨by decide, filter_constraints_no_aspect [posC] posC (by decide)⟩

/-- C8 counterexample: the pair `y ≤ 2x + 10`, `y ≥ 3x + 12` agrees on its
anchors, has different operators and `|b1 - b2| = 2 < 5`, yet
`combine_bounds` returns two equality constraints (with gains 2 and 3), not
a single one. -/
theorem combine_bounds_counterexample :
    anchor_equiv c8a c8b = true
    ∧ c8a.op ≠ c8b.op
    ∧ |c8a.b - c8b.b| < 5
    ∧ combine_bounds [c8a, c8b]
        = [{ c8a with op := .eq, b := 11, priority := .strong },
           { c8b with op := .eq, b := 11, priority := .strong }]
    ∧ ({ c8a with op := CmpOp.eq, b := (11 : ℚ), priority := .strong }
        ≠ { c8b with op := CmpOp.eq, b := (11 : ℚ), priority := .strong }) := by
  have hcond : ∀ d : Constraint, (d != c8a && decide (|d.b - c8a.b| < 5)) = true
      → True := fun _ _ => trivial
  have hstep1 : combineStep [c8a, c8b] c8a
      = { c8a with op := .eq, b := 11, priority := .strong } := by
    simp only [combineStep]
    rw [show first_true [c8a, c8b] (fun t => anchor_equiv c8a t && c8a.op != t.op) c8a
        = c8b from rfl]
    rw [show (c8b != c8a && decide (|c8b.b - c8a.b| < 5)) = true by norm_num [c8a, c8b]]
    norm_num [c8a, c8b]
  have hstep2 : combineStep [c8a, c8b] c8b
      = { c8b with op := .eq, b := 11, priority := .strong } := by
    simp only [combineStep]
    rw [show first_true [c8a, c8b] (fun t => anchor_equiv c8b t && c8b.op != t.op) c8b
        = c8a from rfl]
    rw [show (c8a != c8b && decide (|c8a.b - c8b.b| < 5)) = true by norm_num [c8a, c8b]]
    norm_num [c8a, c8b]
  refine ⟨rfl, by decide, by norm_num [c8a, c8b], ?_, by decide⟩
  show List.foldl (fun out c => setInsert out (combineStep [c8a, c8b] c)) [] [c8a, c8b] = _
  rw [List.foldl_cons, List.foldl_cons, List.foldl_nil, hstep1, hstep2]
  decide

/-- C8 (amended): each input constraint is mapped into the output by
`combineStep` — merged into an equality at the average offset with strong
priority when its first differing-operator anchor-equivalent partner is
within the literal tolerance 5, and passed through unchanged when it has no
such partner (results are deduplicated as a set, so the merged pair
collapses to one constraint only when the two agree on their remaining
fields). -/
theorem combine_bounds_step_membership (cs : List Constraint) (c : Constraint)
    (h : c ∈ cs) :
    combineStep cs c ∈ combine_bounds cs
    ∧ (first_true cs (fun t => anchor_equiv c t && c.op != t.op) c = c
        → combineStep cs c = c) := by
  refine ⟨combineStep_mem_combine_bounds h, ?_⟩
  intro hft
  simp only [combineStep, hft, bne_self_eq_false, Bool.false_and, Bool.false_eq_true,
    if_false]

/-- C8 witness: a constraint with no partner is passed through unchanged and
is a member of the output. -/
theorem combine_bounds_step_membership_witness :
    combineStep [posC] posC ∈ combine_bounds [posC]
    ∧ (first_true [posC] (fun t => anchor_equiv posC t && posC.op != t.op) posC = posC
        → combineStep [posC] posC = posC) :=
  combine_bounds_step_membership [posC] posC (by decide)

theorem addConfDims_shape (conf : Conformance) (k : ℕ) (a b c d : AnchorId) :
    ∀ f ∈ addConfDims conf k a b c d,
      containmentFormB f = false ∧ determinismFormB f = false := by
  intro f hf
  simp only [addConfDims, List.mem_cons, List.not_mem_nil, or_false] at hf
  rcases hf with rfl | rfl | rfl | rfl <;> exact ⟨rfl, rfl⟩

theorem layoutAxioms_shape (k : ℕ) (boxes : List MView) (xd : Bool) :
    ∀ f ∈ layoutAxioms k boxes xd,
      containmentFormB f = false ∧ determinismFormB f = false := by
  intro f hf
  simp only [layoutAxioms, List.mem_flatMap] at hf
  obtain ⟨box, -, hf⟩ := hf
  cases xd <;>
    simp only [if_true, if_false, Bool.false_eq_true, List.mem_append, List.mem_cons,
      List.not_mem_nil, or_false, List.mem_map] at hf <;>
    rcases hf with (rfl | rfl) | ⟨id, -, rfl⟩ <;> exact ⟨rfl, rfl⟩

theorem constraintImp_shape (s : String) (c : Constraint) (k : ℕ) :
    containmentFormB (constraintImp s c k) = false
    ∧ determinismFormB (constraintImp s c k) = false :=
  ⟨rfl, rfl⟩

/-- Every hard assertion of the two instances assembled by
`BlackBoxPruner.__call__` is a conformance pin, a layout axiom or a
selector-guarded constraint: none has the shape of a containment axiom nor
of a determinism clause. -/
theorem buildInstances_hard_shapes (p : Pruner) (cands : List Candidate)
    (cs : List Constraint) (r : Instance × Instance × List Conformance)
    (hr : buildInstances p cands cs = some r) (f : Formula)
    (hf : f ∈ r.1.hard ∨ f ∈ r.2.1.hard) :
    containmentFormB f = false ∧ determinismFormB f = false := by
  simp only [buildInstances] at hr
  split at hr
  · cases hr
  · cases Option.some.inj hr
    rcases hf with hf | hf <;>
    · simp only [List.mem_flatMap] at hf
      obtain ⟨kc, -, hf⟩ := hf
      rcases List.mem_append.mp hf with h12 | h4
      · rcases List.mem_append.mp h12 with h1 | h3
        · exact addConfDims_shape _ _ _ _ _ _ f h1
        · exact layoutAxioms_shape _ _ _ f h3
      · simp only [List.mem_filterMap] at h4
        obtain ⟨fl, -, hif⟩ := h4
        split at hif
        · cases Option.some.inj hif
          exact constraintImp_shape _ _ _
        · cases hif

mutual
/-- `add_containment_axioms` emits only containment-shaped formulas. -/
theorem containmentAxioms_shape (k : ℕ) (xd : Bool) :
    (v : MView) → (containmentAxioms k xd v).all containmentFormB = true
  | .node pn l t r b cs => by
    rw [show containmentAxioms k xd (.node pn l t r b cs)
        = containmentAxiomsList k xd pn cs from rfl]
    exact containmentAxiomsList_shape k xd pn cs
theorem containmentAxiomsList_shape (k : ℕ) (xd : Bool) (pn : String) :
    (cs : List MView) → (containmentAxiomsList k xd pn cs).all containmentFormB = true
  | [] => rfl
  | child :: rest => by
    rw [containmentAxiomsList]
    rw [List.all_append, List.all_append]
    rw [containmentAxioms_shape k xd child, containmentAxiomsList_shape k xd pn rest]
    cases xd <;> simp [containmentFormB]
end

/-- `add_determinism` emits only determinism-shaped clauses. -/
theorem addDeterminism_shape (targets : List MView) (en : String)
    (cmap : List (String × Constraint)) (xd : Bool) :
    (addDeterminism targets en cmap xd).all determinismFormB = true := by
  unfold addDeterminism
  rw [List.all_append]
  refine Bool.and_eq_true_iff.mpr ⟨?_, ?_⟩ <;>
  · rw [List.all_eq_true]
    intro f hf
    simp only [List.mem_flatMap, List.mem_append, List.mem_cons, List.not_mem_nil,
      or_false] at hf
    obtain ⟨x, -, hf⟩ := hf
    rcases hf with ⟨y, -, rfl | rfl⟩ | rfl <;> rfl

/-- C2 counterexample: for the concrete parent/child instance with the
offset candidate, the horizontal Max-SMT instance contains no
containment-shaped assertion at all; in particular the two axioms
`add_containment_axioms` would emit at conformance 0 are absent.  Moreover
the valuation `ν2` satisfies every hard assertion of the instance while
placing the child's right edge at 600, far outside the parent's right edge
at 100 — so a model of the instance need not keep children inside their
parents. -/
theorem containment_axioms_counterexample :
    (buildInstances bbP [⟨posC, 1⟩] (filter_constraints [posC])).isSome = true
    ∧ c2xHard.all (fun f => !containmentFormB f) = true
    ∧ Formula.cmp .ge (.v ⟨"c", .left⟩ 0) (.v ⟨"p", .left⟩ 0)
        ∈ containmentAxioms 0 true exP
    ∧ Formula.cmp .ge (.v ⟨"c", .left⟩ 0) (.v ⟨"p", .left⟩ 0) ∉ c2xHard
    ∧ Formula.cmp .le (.v ⟨"c", .right⟩ 0) (.v ⟨"p", .right⟩ 0) ∉ c2xHard
    ∧ c2xHard.all (fun f => f.eval ν2) = true
    ∧ ¬ (ν2.realV ⟨"c", .right⟩ 0 ≤ ν2.realV ⟨"p", .right⟩ 0) := by
  refine ⟨by decide, by decide, by decide, by decide, by decide, ?_, by norm_num [ν2]⟩
  have h : c2xHard =
      (addConfDims ⟨100,100,0,0⟩ 0 ⟨"p",.left⟩ ⟨"p",.top⟩ ⟨"p",.width⟩ ⟨"p",.height⟩
        ++ (layoutAxioms 0 [exP, exC] true ++ [constraintImp "constr_var0" posC 0]))
      ++ ((addConfDims ⟨(100+100)/2,(100+100)/2,(0+0)/2,(0+0)/2⟩ 1
            ⟨"p",.left⟩ ⟨"p",.top⟩ ⟨"p",.width⟩ ⟨"p",.height⟩
        ++ (layoutAxioms 1 [exP, exC] true ++ [constraintImp "constr_var0" posC 1]))
      ++ ((addConfDims ⟨100,100,0,0⟩ 2 ⟨"p",.left⟩ ⟨"p",.top⟩ ⟨"p",.width⟩ ⟨"p",.height⟩
        ++ (layoutAxioms 2 [exP, exC] true ++ [constraintImp "constr_var0" posC 2]))
      ++ [])) := rfl
  rw [h]
  norm_num [addConfDims, layoutAxioms, constraintImp, constraintCmp, posC, exP, exC,
    MView.aid, MView.xAnchorIds, MView.name, List.all_append,
    Formula.eval, RExpr.eval, CmpOp.apply, ν2]

/-- C2 (amended): the per-conformance instances built by
`BlackBoxPruner.__call__` consist of conformance pins, layout axioms and
selector-guarded candidate constraints only — no containment axioms are
included (the `add_containment_axioms` method, whose output is always
containment-shaped, is never invoked), so child-in-parent containment is not
enforced by the solve. -/
theorem blackbox_instances_no_containment (p : Pruner) (cands : List Candidate)
    (cs : List Constraint) (k : ℕ) (xd : Bool) (parent : MView) :
    ((buildInstances p cands cs).map
        (fun r => (r.1.hard ++ r.2.1.hard).all (fun f => !containmentFormB f))).getD true
      = true
    ∧ (containmentAxioms k xd parent).all containmentFormB = true := by
  refine ⟨?_, containmentAxioms_shape k xd parent⟩
  cases hr : buildInstances p cands cs with
  | none => rfl
  | some r =>
    simp only [Option.map_some', Option.getD_some]
    rw [List.all_eq_true]
    intro f hf
    have := buildInstances_hard_shapes p cands cs r hr f
      (by rcases List.mem_append.mp hf with h | h
          · exact Or.inl h
          · exact Or.inr h)
    simp [this.1]

/-- C3 counterexample: with unambiguity enabled, neither the horizontal nor
the vertical instance built for the concrete parent/child input contains any
determinism-shaped clause; the `add_determinism` method is never invoked.
Had it been, its per-view clause would require the 0-1 sum to equal exactly
2 (`intSumEq .. 2`), not at most 2. -/
theorem determinism_clauses_counterexample :
    bbPu.solve_unambig = true
    ∧ (buildInstances bbPu [⟨posC, 1⟩] (filter_constraints [posC])).isSome = true
    ∧ c3xHard.all (fun f => !determinismFormB f) = true
    ∧ c3yHard.all (fun f => !determinismFormB f) = true
    ∧ Formula.intSumEq ["determ_x_c0"] 2
        ∈ addDeterminism bbPu.targets "p" [("constr_var0", posC)] true :=
  ⟨rfl, by decide, by decide, by decide, by decide⟩

/-- C3 (amended): `BlackBoxPruner.__call__` never adds determinism clauses
to its Max-SMT instances, with or without unambiguity: every hard assertion
is a pin, a layout axiom or a selector-guarded constraint, while every
clause of the (uninvoked) `add_determinism` method is determinism-shaped —
and its per-view cardinality clause requires exactly two constrained
anchors, not at most two. -/
theorem blackbox_instances_no_determinism (p : Pruner) (cands : List Candidate)
    (cs : List Constraint) (targets : List MView) (en : String)
    (cmap : List (String × Constraint)) (xd : Bool) :
    ((buildInstances p cands cs).map
        (fun r => (r.1.hard ++ r.2.1.hard).all (fun f => !determinismFormB f))).getD true
      = true
    ∧ (addDeterminism targets en cmap xd).all determinismFormB = true := by
  refine ⟨?_, addDeterminism_shape targets en cmap xd⟩
  cases hr : buildInstances p cands cs with
  | none => rfl
  | some r =>
    simp only [Option.map_some', Option.getD_some]
    rw [List.all_eq_true]
    intro f hf
    have := buildInstances_hard_shapes p cands cs r hr f
      (by rcases List.mem_append.mp hf with h | h
          · exact Or.inl h
          · exact Or.inr h)
    simp [this.2]

/-- On its initial call (no recorded invalid candidates), the solve loop in
dry-run mode performs exactly one check, on the bare hard assertions with no
blocking clauses, and returns that model's selections and endpoint
valuations. -/
theorem synthUnambiguous_dry (oracle : Oracle) (hard : List Formula)
    (soft : List (String × ℚ)) (nm : List (String × Constraint))
    (ex : MView) (tg : List MView) (cl : ℕ) (xd : Bool) (fuel : ℕ) :
    synthUnambiguous oracle hard soft nm ex tg cl xd true (fuel + 1) []
      = dryRunSolve oracle hard soft nm ex tg cl xd := by
  rw [synthUnambiguous]
  simp only [List.map_nil, List.append_nil, dryRunSolve]
  cases oracle hard soft with
  | sat m =>
    cases extractVals m (cl / 2) (axisAnchorIds (ex :: tg) xd) <;> simp
  | unsat => rfl
  | unknown => rfl

/-- C4: with the unambig option false, `BlackBoxPruner.__call__` runs a
single Max-SMT solve per axis — no CEGIS iteration and no blocking clauses —
and returns the constraints whose selector is true in that first model
together with the anchor valuations extracted from that model at the first
and at the last sampled conformance (`dryRunSolve` checks the instance's
hard assertions once and extracts at indices `0` and `confs.length - 1`). -/
theorem blackBoxCall_no_unambig_single_solve (fuel : ℕ) (p : Pruner)
    (oracle : Oracle) (cands : List Candidate) :
    blackBoxCall (fuel + 1) { p with solve_unambig := false } oracle cands
      = (let constraints := filter_constraints (cands.map (·.constraint))
         if constraints.isEmpty then
           some ([], defaultVals p.example_, defaultVals p.example_)
         else
           match buildInstances { p with solve_unambig := false } cands constraints with
           | none => none
           | some (xi, yi, confs) =>
             match dryRunSolve oracle xi.hard xi.soft xi.names p.example_
                 p.targets confs.length true with
             | none => none
             | some (xcs, xmin, xmax) =>
               match dryRunSolve oracle yi.hard yi.soft yi.names p.example_
                   p.targets confs.length false with
               | none => none
               | some (ycs, ymin, ymax) =>
                 some (xcs ++ ycs, dictMerge xmin ymin, dictMerge xmax ymax)) := by
  unfold blackBoxCall
  by_cases he : (filter_constraints (cands.map (·.constraint))).isEmpty <;>
    simp only [he, if_true, if_false, Bool.false_eq_true]
  cases hb : buildInstances { p with solve_unambig := false } cands
      (filter_constraints (cands.map (·.constraint))) with
  | none => rfl
  | some r =>
    obtain ⟨xi, yi, confs⟩ := r
    simp only [Bool.not_false, synthUnambiguous_dry]

namespace Inst

theorem markPairs_symm (ps : List (ℕ × ℕ)) (M : ℕ → ℕ → Bool)
    (hM : ∀ a b, M a b = M b a) (a b : ℕ) :
    markPairs M ps a b = markPairs M ps b a := by
  induction ps generalizing M with
  | nil => exact hM a b
  | cons p rest ih =>
    simp only [markPairs, List.foldl_cons] at *
    refine ih _ (fun x y => ?_)
    simp only [markSym]
    rw [hM x y]
    simp [Bool.or_comm, Bool.or_left_comm, Bool.and_comm]

theorem foldl_orM (ancs : List AnchorRec) (l : List PView) (M : ℕ → ℕ → Bool)
    (i j : ℕ) :
    (l.foldl (fun M ex => orM M (computeVisibilityMatrix ancs ex)) M) i j
      = (M i j || l.any (fun ex => computeVisibilityMatrix ancs ex i j)) := by
  induction l generalizing M with
  | nil => simp
  | cons e rest ih =>
    rw [List.foldl_cons, ih, List.any_cons]
    simp [orM, Bool.or_assoc]

theorem filterMap_size (l : List AnchorRec) :
    (l.filterMap (fun a => if a.type.isSize then
        some { y := a, x := none, a := some 0, b := none : Sketch } else none))
      = (l.filter (fun a => a.type.isSize)).map
          (fun a => { y := a, x := none, a := some 0, b := none : Sketch }) := by
  induction l with
  | nil => rfl
  | cons a rest ih =>
    by_cases h : a.type.isSize <;>
      simp [List.filterMap_cons, List.filter_cons, h, ih]

theorem filter_parts (P Q R : List Sketch)
    (hP : P.filter (fun s => s.x.isNone) = [])
    (hQ : Q.filter (fun s => s.x.isNone) = R) :
    (P ++ Q).filter (fun s => s.x.isNone) = R := by
  rw [List.filter_append, hP, hQ]
  rfl

end Inst

/-- C5: the anchor-level visibility matrix used by `template_instantiation`
is the pointwise OR of the per-example visibility matrices, and each
per-example matrix is symmetric. -/
theorem visibility_union_and_symm (ancs : List Inst.AnchorRec)
    (examples : List Inst.PView) (i j : ℕ) :
    Inst.combinedVisibility ancs examples i j
      = examples.any (fun ex => Inst.computeVisibilityMatrix ancs ex i j)
    ∧ ∀ root : Inst.PView,
        Inst.computeVisibilityMatrix ancs root i j
          = Inst.computeVisibilityMatrix ancs root j i := by
  constructor
  · rw [Inst.combinedVisibility, Inst.foldl_orM ancs examples Inst.zeroM i j]
    rfl
  · intro root
    exact Inst.markPairs_symm (Inst.sweepPairs ancs root) Inst.zeroM
      (fun _ _ => rfl) i j

/-- C6: `template_instantiation` emits exactly one constant-form sketch
(`x` absent, `a = 0`, `b` unknown) per size anchor of the reference example
and none for any other anchor: the constant-form sketches of the output are
exactly the size anchors, in order. -/
theorem constant_templates_exactly_size_anchors (e : Inst.PView)
    (rest : List Inst.PView) (out : List Inst.Sketch)
    (h : Inst.templateInstantiation (e :: rest) = some out) :
    out.filter (fun s => s.x.isNone)
      = ((Inst.anchorRecs none e).filter (fun a => a.type.isSize)).map
          (fun a => { y := a, x := none, a := some 0, b := none }) := by
  simp only [Inst.templateInstantiation] at h
  cases Option.some.inj h
  apply Inst.filter_parts
  · rw [List.filter_eq_nil_iff]
    intro s hs
    simp only [List.mem_flatMap] at hs
    obtain ⟨pi, -, hs⟩ := hs
    obtain ⟨pj, -, hs⟩ := hs
    rcases List.mem_append.mp hs with hs | hs
    · rcases List.mem_append.mp hs with hs | hs <;>
      · split at hs
        · cases List.mem_singleton.mp hs
          simp
        · cases hs
    · split at hs
      · cases List.mem_singleton.mp hs
        simp
      · cases hs
  · rw [Inst.filterMap_size]
    apply List.filter_eq_self.mpr
    intro s hs
    obtain ⟨a, -, rfl⟩ := List.mem_map.mp hs
    rfl

/-- C6 witness: on a single-view example the output is one aspect-ratio
sketch plus the two constant sketches for width and height, and the theorem
applies. -/
theorem constant_templates_exactly_size_anchors_witness :
    Inst.templateInstantiation [v0]
      = some [{ y := v0w, x := some v0h, a := none, b := some 0 },
              { y := v0w, x := none, a := some 0, b := none },
              { y := v0h, x := none, a := some 0, b := none }]
    ∧ ([{ y := v0w, x := some v0h, a := none, b := some 0 },
        { y := v0w, x := none, a := some 0, b := none },
        { y := v0h, x := none, a := some 0, b := none }] : List Inst.Sketch).filter
          (fun s => s.x.isNone)
        = ((Inst.anchorRecs none v0).filter (fun a => a.type.isSize)).map
            (fun a => { y := a, x := none, a := some 0, b := none }) :=
  ⟨rfl, constant_templates_exactly_size_anchors v0 [] _ rfl⟩

end Spec2Proof
